import Mathlib

/-!
Verification of the Regnier-Problem clustering core: similarity-matrix
construction, connectivity-cut heuristics, triangle-constraint filtering
(base, alpha, beta, gamma variants) and the pairwise-indicator partition
decoder, shallowly embedded from `RegnierProblem.py` and
`RegnierProblemLP.py` (the two files duplicate these routines verbatim).
-/

namespace Regnier

/-- Dataset loading dimensions, from `__init__` (both files): `n` counts the
rows, `m` accumulates the total number of tokens over all rows and is then
floor-divided by `n`.  The source performs no validation of row lengths. -/
def loadDims (rows : List (List String)) : Nat × Nat :=
  (rows.length, (rows.foldl (fun acc r => acc + r.length) 0) / rows.length)

/-- Similarity of two records over `m` attributes, from `__init__`:
`total` counts attributes where both values are non-missing (`≠ "?"`) and
equal; `total_missing` counts attributes where the non-missing test fails;
the entry is `-((m - total_missing) - 2*total)`. -/
def simPair (m : Nat) (ri rj : Nat → String) : Int :=
  -(((m : Int)
      - ((Finset.range m).filter (fun k => ¬(ri k ≠ "?" ∧ rj k ≠ "?"))).card)
    - 2 * ((Finset.range m).filter (fun k => ri k ≠ "?" ∧ rj k ≠ "?" ∧ ri k = rj k)).card)

/-- The similarity matrix `S`, from `__init__`: every cell is initialised to
`-m-1` and the cells with `i ≠ j` are then overwritten with the symmetric
difference similarity. -/
def simS (m : Nat) (D : Nat → Nat → String) (i j : Nat) : Int :=
  if i ≠ j then simPair m (D i) (D j) else -(m : Int) - 1

/-- A small concrete dataset (2 records, 2 attributes, one missing value)
used to instantiate theorems. -/
def D0 : Nat → Nat → String :=
  fun i k => (([["a", "b"], ["a", "?"]].getD i []).getD k "")

lemma filter_split_eq (m : Nat) (ri rj : Nat → String) :
    (((Finset.range m).filter (fun k => ri k ≠ "?" ∧ rj k ≠ "?" ∧ ri k = rj k)).card : Nat)
      + ((Finset.range m).filter (fun k => ri k ≠ "?" ∧ rj k ≠ "?" ∧ ri k ≠ rj k)).card
      = ((Finset.range m).filter (fun k => ri k ≠ "?" ∧ rj k ≠ "?")).card := by
  have h1 : (Finset.range m).filter (fun k => ri k ≠ "?" ∧ rj k ≠ "?" ∧ ri k = rj k)
      = ((Finset.range m).filter (fun k => ri k ≠ "?" ∧ rj k ≠ "?")).filter
          (fun k => ri k = rj k) := by
    rw [Finset.filter_filter]
    exact Finset.filter_congr (fun x _ => by tauto)
  have h2 : (Finset.range m).filter (fun k => ri k ≠ "?" ∧ rj k ≠ "?" ∧ ri k ≠ rj k)
      = ((Finset.range m).filter (fun k => ri k ≠ "?" ∧ rj k ≠ "?")).filter
          (fun k => ¬ ri k = rj k) := by
    rw [Finset.filter_filter]
    exact Finset.filter_congr (fun x _ => by tauto)
  rw [h1, h2]
  exact Finset.filter_card_add_filter_neg_card_eq_card (fun k => ri k = rj k)

lemma filter_present_add_missing (m : Nat) (ri rj : Nat → String) :
    (((Finset.range m).filter (fun k => ri k ≠ "?" ∧ rj k ≠ "?")).card : Nat)
      + ((Finset.range m).filter (fun k => ¬(ri k ≠ "?" ∧ rj k ≠ "?"))).card = m := by
  have := Finset.filter_card_add_filter_neg_card_eq_card
    (s := Finset.range m) (fun k => ri k ≠ "?" ∧ rj k ≠ "?")
  simpa using this

/-- Claim C3: for every raw data matrix and every ordered pair of distinct
records `i ≠ j`, the similarity entry `S[i][j]` equals the number of
attributes where both records have non-missing equal values minus the number
of attributes where both values are non-missing and differ; attributes with
a missing value in either record contribute to neither count. -/
theorem similarity_matches_minus_mismatches
    (m : Nat) (D : Nat → Nat → String) (i j : Nat) (h : i ≠ j) :
    simS m D i j =
      ((((Finset.range m).filter
          (fun k => D i k ≠ "?" ∧ D j k ≠ "?" ∧ D i k = D j k)).card : Int)
        - (((Finset.range m).filter
          (fun k => D i k ≠ "?" ∧ D j k ≠ "?" ∧ D i k ≠ D j k)).card : Int)) := by
  have hsplit := filter_split_eq m (D i) (D j)
  have hmiss := filter_present_add_missing m (D i) (D j)
  rw [simS, if_pos h, simPair]
  omega

/-- Witness for claim C3 at the concrete dataset `D0`. -/
theorem similarity_matches_minus_mismatches_witness :
    (0 : Nat) ≠ 1 ∧
    simS 2 D0 0 1 =
      ((((Finset.range 2).filter
          (fun k => D0 0 k ≠ "?" ∧ D0 1 k ≠ "?" ∧ D0 0 k = D0 1 k)).card : Int)
        - (((Finset.range 2).filter
          (fun k => D0 0 k ≠ "?" ∧ D0 1 k ≠ "?" ∧ D0 0 k ≠ D0 1 k)).card : Int)) :=
  ⟨by decide, similarity_matches_minus_mismatches 2 D0 0 1 (by decide)⟩

/-- Claim C9: the constructed similarity matrix is symmetric,
`S[i][j] = S[j][i]` for all pairs of distinct indices. -/
theorem similarity_symmetric
    (m : Nat) (D : Nat → Nat → String) (i j : Nat) (h : i ≠ j) :
    simS m D i j = simS m D j i := by
  rw [simS, simS, if_pos h, if_pos (Ne.symm h), simPair, simPair]
  have h1 : (Finset.range m).filter (fun k => D i k ≠ "?" ∧ D j k ≠ "?" ∧ D i k = D j k)
      = (Finset.range m).filter (fun k => D j k ≠ "?" ∧ D i k ≠ "?" ∧ D j k = D i k) :=
    Finset.filter_congr (fun x _ => by constructor <;> (rintro ⟨a, b, c⟩; exact ⟨b, a, c.symm⟩))
  have h2 : (Finset.range m).filter (fun k => ¬(D i k ≠ "?" ∧ D j k ≠ "?"))
      = (Finset.range m).filter (fun k => ¬(D j k ≠ "?" ∧ D i k ≠ "?")) :=
    Finset.filter_congr (fun x _ => by tauto)
  rw [h1, h2]

/-- Witness for claim C9 at the concrete dataset `D0`. -/
theorem similarity_symmetric_witness :
    (0 : Nat) ≠ 1 ∧ simS 2 D0 0 1 = simS 2 D0 1 0 :=
  ⟨by decide, similarity_symmetric 2 D0 0 1 (by decide)⟩

/-- Claim C10: every off-diagonal similarity entry lies in `[-m, m]` and
every diagonal entry equals the sentinel `-m-1`. -/
theorem similarity_range_and_diagonal
    (m : Nat) (D : Nat → Nat → String) (i j : Nat) (h : i ≠ j) :
    (-(m : Int) ≤ simS m D i j ∧ simS m D i j ≤ (m : Int)) ∧
    simS m D i i = -(m : Int) - 1 := by
  constructor
  · have hsplit := filter_split_eq m (D i) (D j)
    have hmiss := filter_present_add_missing m (D i) (D j)
    rw [simS, if_pos h, simPair]
    omega
  · simp [simS]

/-- Witness for claim C10 at the concrete dataset `D0`. -/
theorem similarity_range_and_diagonal_witness :
    (0 : Nat) ≠ 1 ∧
    ((-(2 : Int) ≤ simS 2 D0 0 1 ∧ simS 2 D0 0 1 ≤ (2 : Int)) ∧
      simS 2 D0 0 0 = -(2 : Int) - 1) :=
  ⟨by decide, similarity_range_and_diagonal 2 D0 0 1 (by decide)⟩

/-- The list of variable pairs `i < j` in the enumeration order of the
model-construction loops (`for i in range(n): for j in range(i+1, n)`). -/
def pairsList (n : Nat) : List (Nat × Nat) :=
  (List.range n).flatMap (fun i => (List.range' (i + 1) (n - (i + 1))).map (fun j => (i, j)))

/-- The list of triples in the enumeration order of the constraint loops
(`for i: for j in range(i+1, n): for k in range(j+1, n)`). -/
def triples (n : Nat) : List (Nat × Nat × Nat) :=
  (List.range n).flatMap (fun i =>
    (List.range' (i + 1) (n - (i + 1))).flatMap (fun j =>
      (List.range' (j + 1) (n - (j + 1))).map (fun k => (i, j, k))))

/-- The three canonical triangle constraints of a triple `i<j<k`:
`c1 : x_ij + x_jk - x_ik ≤ 1`, `c2 : x_ij - x_jk + x_ik ≤ 1`,
`c3 : -x_ij + x_jk + x_ik ≤ 1`. -/
inductive TriKind where
  | c1
  | c2
  | c3
deriving DecidableEq

/-- Generic triangle-constraint filter: for every triple `i<j<k` (in loop
order) emit each of the three constraints exactly when its guard holds.
Each filtered model in the source instantiates this with its own guards. -/
def emitTriangle (n : Nat) (P1 P2 P3 : Nat → Nat → Nat → Prop)
    [∀ a b c, Decidable (P1 a b c)] [∀ a b c, Decidable (P2 a b c)]
    [∀ a b c, Decidable (P3 a b c)] : List (Nat × Nat × Nat × TriKind) :=
  (triples n).flatMap (fun t =>
    (if P1 t.1 t.2.1 t.2.2 then [(t.1, t.2.1, t.2.2, TriKind.c1)] else []) ++
    (if P2 t.1 t.2.1 t.2.2 then [(t.1, t.2.1, t.2.2, TriKind.c2)] else []) ++
    (if P3 t.1 t.2.1 t.2.2 then [(t.1, t.2.1, t.2.2, TriKind.c3)] else []))

/-- Constraint set of the base model, from `runRM` / `saveRM`: all three
triangle constraints for every triple `i<j<k`, unconditionally. -/
def baseConstraints (n : Nat) : List (Nat × Nat × Nat × TriKind) :=
  (triples n).flatMap (fun t =>
    [(t.1, t.2.1, t.2.2, TriKind.c1), (t.1, t.2.1, t.2.2, TriKind.c2),
      (t.1, t.2.1, t.2.2, TriKind.c3)])

/-- Constraint set of the alpha model, from `runRMalpha` / `saveRMalpha`:
guards `S_ij ≥ cut ∨ S_jk ≥ cut`, `S_ij ≥ cut ∨ S_ik ≥ cut`,
`S_jk ≥ cut ∨ S_ik ≥ cut`. -/
def alphaConstraints (S : Nat → Nat → Int) (n : Nat) (cut : Int) :
    List (Nat × Nat × Nat × TriKind) :=
  emitTriangle n
    (fun i j k => S i j ≥ cut ∨ S j k ≥ cut)
    (fun i j k => S i j ≥ cut ∨ S i k ≥ cut)
    (fun i j k => S j k ≥ cut ∨ S i k ≥ cut)

/-- Constraint set of the beta model, from `runRMbeta` / `saveRMbeta`:
guards `S_ij + S_jk ≥ cut`, `S_ij + S_ik ≥ cut`, `S_jk + S_ik ≥ cut`. -/
def betaConstraints (S : Nat → Nat → Int) (n : Nat) (cut : Int) :
    List (Nat × Nat × Nat × TriKind) :=
  emitTriangle n
    (fun i j k => S i j + S j k ≥ cut)
    (fun i j k => S i j + S i k ≥ cut)
    (fun i j k => S j k + S i k ≥ cut)

/-- Constraint set of the gamma model at a given cut, from `runRMgamma` /
`saveRMgamma`: guards `S_ij ≥ 0 ∧ S_jk ≥ cut ∧ S_ik ≤ 0`,
`S_ij ≥ 0 ∧ S_jk ≤ 0 ∧ S_ik ≥ cut`, `S_ij ≤ 0 ∧ S_jk ≥ cut ∧ S_ik ≥ 0`. -/
def gammaConstraints (S : Nat → Nat → Int) (n : Nat) (cut : Int) :
    List (Nat × Nat × Nat × TriKind) :=
  emitTriangle n
    (fun i j k => S i j ≥ 0 ∧ S j k ≥ cut ∧ S i k ≤ 0)
    (fun i j k => S i j ≥ 0 ∧ S j k ≤ 0 ∧ S i k ≥ cut)
    (fun i j k => S i j ≤ 0 ∧ S j k ≥ cut ∧ S i k ≥ 0)

lemma mem_ite_singleton {α : Type} {p : Prop} [Decidable p] {x y : α} :
    (y ∈ if p then [x] else []) ↔ p ∧ y = x := by
  by_cases h : p <;> simp [h]

lemma mem_triples {n i j k : Nat} :
    (i, j, k) ∈ triples n ↔ i < j ∧ j < k ∧ k < n := by
  simp only [triples, List.mem_flatMap, List.mem_map, List.mem_range, List.mem_range'_1,
    Prod.mk.injEq]
  constructor
  · rintro ⟨a, ha, b, ⟨hb1, hb2⟩, c, ⟨hc1, hc2⟩, rfl, rfl, rfl⟩
    omega
  · rintro ⟨hij, hjk, hkn⟩
    exact ⟨i, by omega, j, ⟨by omega, by omega⟩, k, ⟨by omega, by omega⟩, rfl, rfl, rfl⟩

lemma mem_emitTriangle {n : Nat} {P1 P2 P3 : Nat → Nat → Nat → Prop}
    [∀ a b c, Decidable (P1 a b c)] [∀ a b c, Decidable (P2 a b c)]
    [∀ a b c, Decidable (P3 a b c)] {i j k : Nat} {kd : TriKind} :
    ((i, j, k, kd) ∈ emitTriangle n P1 P2 P3) ↔
      i < j ∧ j < k ∧ k < n ∧
        (match kd with
          | TriKind.c1 => P1 i j k
          | TriKind.c2 => P2 i j k
          | TriKind.c3 => P3 i j k) := by
  simp only [emitTriangle, List.mem_flatMap, List.mem_append, mem_ite_singleton,
    Prod.mk.injEq]
  constructor
  · rintro ⟨⟨a, b, c⟩, ht, hmem⟩
    rw [mem_triples] at ht
    rcases hmem with (⟨hp, rfl, rfl, rfl, rfl⟩ | ⟨hp, rfl, rfl, rfl, rfl⟩) |
      ⟨hp, rfl, rfl, rfl, rfl⟩ <;> exact ⟨ht.1, ht.2.1, ht.2.2, hp⟩
  · rintro ⟨hij, hjk, hkn, hp⟩
    refine ⟨(i, j, k), mem_triples.2 ⟨hij, hjk, hkn⟩, ?_⟩
    cases kd with
    | c1 => exact Or.inl (Or.inl ⟨hp, rfl, rfl, rfl, rfl⟩)
    | c2 => exact Or.inl (Or.inr ⟨hp, rfl, rfl, rfl, rfl⟩)
    | c3 => exact Or.inr ⟨hp, rfl, rfl, rfl, rfl⟩

lemma mem_baseConstraints {n i j k : Nat} {kd : TriKind} :
    ((i, j, k, kd) ∈ baseConstraints n) ↔ i < j ∧ j < k ∧ k < n := by
  simp only [baseConstraints, List.mem_flatMap, List.mem_cons, List.not_mem_nil, or_false,
    Prod.mk.injEq]
  constructor
  · rintro ⟨⟨a, b, c⟩, ht, hmem⟩
    rw [mem_triples] at ht
    rcases hmem with ⟨rfl, rfl, rfl, rfl⟩ | ⟨rfl, rfl, rfl, rfl⟩ | ⟨rfl, rfl, rfl, rfl⟩ <;>
      exact ht
  · rintro ⟨hij, hjk, hkn⟩
    refine ⟨(i, j, k), mem_triples.2 ⟨hij, hjk, hkn⟩, ?_⟩
    cases kd with
    | c1 => exact Or.inl ⟨rfl, rfl, rfl, rfl⟩
    | c2 => exact Or.inr (Or.inl ⟨rfl, rfl, rfl, rfl⟩)
    | c3 => exact Or.inr (Or.inr ⟨rfl, rfl, rfl, rfl⟩)

lemma sum_range'_sub (b : Nat) :
    ∀ a : Nat, ((List.range' a b).map (fun j => (a + b) - (j + 1))).sum = b.choose 2 := by
  induction b with
  | zero => intro a; simp
  | succ b ih =>
    intro a
    rw [List.range'_succ, List.map_cons, List.sum_cons]
    have harg : a + (b + 1) = (a + 1) + b := by omega
    simp only [harg]
    rw [ih (a + 1)]
    have h1 : (a + 1) + b - (a + 1) = b := by omega
    have h2 : (b + 1).choose 2 = b.choose 1 + b.choose 2 := Nat.choose_succ_succ b 1
    have h3 : b.choose 1 = b := Nat.choose_one_right b
    omega

lemma triples_length (n : Nat) : (triples n).length = n.choose 3 := by
  have hinner : ∀ i : Nat, i < n →
      (((List.range' (i + 1) (n - (i + 1))).flatMap (fun j =>
        (List.range' (j + 1) (n - (j + 1))).map (fun k => (i, j, k)))).length)
        = (n - (i + 1)).choose 2 := by
    intro i hi
    rw [List.length_flatMap]
    have hmap : ((List.range' (i + 1) (n - (i + 1))).map
        (List.length ∘ fun j => (List.range' (j + 1) (n - (j + 1))).map (fun k => (i, j, k))))
        = ((List.range' (i + 1) (n - (i + 1))).map
            (fun j => ((i + 1) + (n - (i + 1))) - (j + 1))) := by
      refine List.map_congr_left (fun j _ => ?_)
      simp only [Function.comp_apply, List.length_map, List.length_range']
      omega
    rw [hmap, sum_range'_sub (n - (i + 1)) (i + 1)]
  rw [triples, List.length_flatMap]
  have hmap2 : ((List.range n).map (List.length ∘ fun i =>
      (List.range' (i + 1) (n - (i + 1))).flatMap (fun j =>
        (List.range' (j + 1) (n - (j + 1))).map (fun k => (i, j, k)))))
      = ((List.range n).map (fun i => (n - (i + 1)).choose 2)) := by
    refine List.map_congr_left (fun i hi => ?_)
    exact hinner i (List.mem_range.1 hi)
  rw [hmap2]
  clear hinner hmap2
  induction n with
  | zero => simp
  | succ n ih =>
    rw [List.range_succ_eq_map, List.map_cons, List.sum_cons, List.map_map]
    have harg : ((List.range n).map ((fun i => (n + 1 - (i + 1)).choose 2) ∘ Nat.succ))
        = ((List.range n).map (fun i => (n - (i + 1)).choose 2)) := by
      refine List.map_congr_left (fun i _ => ?_)
      simp only [Function.comp_apply, Nat.succ_eq_add_one]
      congr 1
      omega
    rw [harg, ih]
    have h2 : (n + 1).choose 3 = n.choose 2 + n.choose 3 := Nat.choose_succ_succ n 2
    have h3 : n + 1 - (0 + 1) = n := by omega
    rw [h3]
    omega

lemma emitTriangle_subset_base {n : Nat} {P1 P2 P3 : Nat → Nat → Nat → Prop}
    [∀ a b c, Decidable (P1 a b c)] [∀ a b c, Decidable (P2 a b c)]
    [∀ a b c, Decidable (P3 a b c)] :
    emitTriangle n P1 P2 P3 ⊆ baseConstraints n := by
  intro x hx
  obtain ⟨i, j, k, kd⟩ := x
  have h := mem_emitTriangle.1 hx
  exact mem_baseConstraints.2 ⟨h.1, h.2.1, h.2.2.1⟩

/-- Claim C7: the base model contains exactly `3·C(n,3)` triangle
constraints, and for every variant (alpha, beta, gamma) and every cut value
the emitted constraint set is a subset of the base variant's set. -/
theorem base_count_and_variant_subsets (n : Nat) :
    (baseConstraints n).length = 3 * n.choose 3 ∧
    ∀ (S : Nat → Nat → Int) (cut : Int),
      alphaConstraints S n cut ⊆ baseConstraints n ∧
      betaConstraints S n cut ⊆ baseConstraints n ∧
      gammaConstraints S n cut ⊆ baseConstraints n := by
  constructor
  · rw [baseConstraints, List.length_flatMap]
    have hmap : ((triples n).map (List.length ∘ fun t =>
        [(t.1, t.2.1, t.2.2, TriKind.c1), (t.1, t.2.1, t.2.2, TriKind.c2),
          (t.1, t.2.1, t.2.2, TriKind.c3)]))
        = List.replicate (triples n).length 3 := by
      rw [← List.map_const]
      exact List.map_congr_left (fun t _ => rfl)
    rw [hmap, List.sum_replicate, smul_eq_mul, triples_length, Nat.mul_comm]
  · intro S cut
    exact ⟨emitTriangle_subset_base, emitTriangle_subset_base, emitTriangle_subset_base⟩

/-- Claim C5: for the alpha variant with cut value `c` and every triple
`i<j<k`, C1 is emitted iff `S_ij ≥ c ∨ S_jk ≥ c`, C2 iff
`S_ij ≥ c ∨ S_ik ≥ c`, C3 iff `S_jk ≥ c ∨ S_ik ≥ c`, and no other
constraints are emitted. -/
theorem alpha_emission_rule (S : Nat → Nat → Int) (n : Nat) (cut : Int) (i j k : Nat) :
    (((i, j, k, TriKind.c1) ∈ alphaConstraints S n cut) ↔
      i < j ∧ j < k ∧ k < n ∧ (S i j ≥ cut ∨ S j k ≥ cut)) ∧
    (((i, j, k, TriKind.c2) ∈ alphaConstraints S n cut) ↔
      i < j ∧ j < k ∧ k < n ∧ (S i j ≥ cut ∨ S i k ≥ cut)) ∧
    (((i, j, k, TriKind.c3) ∈ alphaConstraints S n cut) ↔
      i < j ∧ j < k ∧ k < n ∧ (S j k ≥ cut ∨ S i k ≥ cut)) :=
  ⟨mem_emitTriangle, mem_emitTriangle, mem_emitTriangle⟩

/-- One pass over the edge list growing a reachable-vertex list (models the
connectivity test performed by the graph library). -/
def expandReach (E : List (Nat × Nat × Int)) (r : List Nat) : List Nat :=
  E.foldl (fun acc e =>
    if e.1 ∈ acc ∧ e.2.1 ∉ acc then acc ++ [e.2.1]
    else if e.2.1 ∈ acc ∧ e.1 ∉ acc then acc ++ [e.1]
    else acc) r

/-- Iterated reachability expansion with explicit fuel. -/
def reachN (E : List (Nat × Nat × Int)) : Nat → List Nat → List Nat
  | 0, r => r
  | fuel + 1, r => reachN E fuel (expandReach E r)

/-- Connectivity of the undirected graph on vertices `0..n-1` with edge list
`E` (models `igraph.Graph.is_connected`): every vertex is reachable from
vertex `0`; `n` expansion rounds suffice on `n` vertices. -/
def isConnectedB (n : Nat) (E : List (Nat × Nat × Int)) : Bool :=
  (List.range n).all (fun v => (reachN E n [0]).contains v)

/-- The threshold-search loop of `__findPositiveCut` / `__findNegativeCut`:
process candidate cuts in order; at each candidate permanently delete every
edge of weight strictly below it, keep the candidate as `best` while the
remaining graph stays connected, and stop at the first disconnection. -/
def findCutLoop (n : Nat) : List (Nat × Nat × Int) → Int → List Int → Int
  | _, best, [] => best
  | E, best, c :: rest =>
    if isConnectedB n (E.filter (fun e => ¬ e.2.2 < c)) then
      findCutLoop n (E.filter (fun e => ¬ e.2.2 < c)) c rest
    else best

/-- Edge list of the positive heuristic graph: pairs `i<j` with
`S[i][j] ≥ 0`, weighted by `S[i][j]`. -/
def posEdges (S : Nat → Nat → Int) (n : Nat) : List (Nat × Nat × Int) :=
  (pairsList n).filterMap (fun p =>
    if S p.1 p.2 ≥ 0 then some (p.1, p.2, S p.1 p.2) else none)

/-- Edge list of the negative heuristic graph: pairs `i<j` with
`S[i][j] ≤ 0`, weighted by `S[i][j]`. -/
def negEdges (S : Nat → Nat → Int) (n : Nat) : List (Nat × Nat × Int) :=
  (pairsList n).filterMap (fun p =>
    if S p.1 p.2 ≤ 0 then some (p.1, p.2, S p.1 p.2) else none)

/-- The distinct positive-heuristic edge weights, sorted ascending (models
`sorted(set(...))`). -/
def posWeights (S : Nat → Nat → Int) (n : Nat) : List Int :=
  List.insertionSort (· ≤ ·) (((posEdges S n).map (fun e => e.2.2)).dedup)

/-- The distinct negative-heuristic edge weights, sorted ascending. -/
def negWeights (S : Nat → Nat → Int) (n : Nat) : List Int :=
  List.insertionSort (· ≤ ·) (((negEdges S n).map (fun e => e.2.2)).dedup)

/-- The cut value returned by `__findPositiveCut`: threshold search starting
from `best_cut = 0` over the sorted distinct non-negative edge weights. -/
def findPositiveCut (S : Nat → Nat → Int) (n : Nat) : Int :=
  findCutLoop n (posEdges S n) 0 (posWeights S n)

/-- The cut value returned by `__findNegativeCut`. -/
def findNegativeCut (S : Nat → Nat → Int) (n : Nat) : Int :=
  findCutLoop n (negEdges S n) 0 (negWeights S n)

/-- Constraint set built by `runRMgamma` / `saveRMgamma`: the gamma filter
instantiated with the negative-heuristic cut. -/
def gammaRunConstraints (S : Nat → Nat → Int) (n : Nat) :
    List (Nat × Nat × Nat × TriKind) :=
  gammaConstraints S n (findNegativeCut S n)

/-- A concrete similarity assignment on 3 records whose positive-edge graph
is disconnected: only the pair `(0,1)` has non-negative similarity. -/
def S1 : Nat → Nat → Int := fun i j => if i = 0 ∧ j = 1 then 3 else -1

lemma findCutLoop_zero_or_mem (n : Nat) :
    ∀ (cs : List Int) (E : List (Nat × Nat × Int)) (best : Int),
      findCutLoop n E best cs = best ∨ findCutLoop n E best cs ∈ cs := by
  intro cs
  induction cs with
  | nil => intro E best; exact Or.inl rfl
  | cons c rest ih =>
    intro E best
    rw [findCutLoop]
    split
    · rcases ih (E.filter (fun e => ¬ e.2.2 < c)) c with h1 | h1
      · exact Or.inr (by rw [h1]; exact List.mem_cons_self c rest)
      · exact Or.inr (List.mem_cons_of_mem c h1)
    · exact Or.inl rfl

lemma posWeights_nonneg {S : Nat → Nat → Int} {n : Nat} {w : Int}
    (hw : w ∈ posWeights S n) : 0 ≤ w := by
  rw [posWeights] at hw
  rw [(List.perm_insertionSort (· ≤ ·) _).mem_iff, List.mem_dedup, List.mem_map] at hw
  obtain ⟨e, he, rfl⟩ := hw
  rw [posEdges, List.mem_filterMap] at he
  obtain ⟨p, _, hsome⟩ := he
  by_cases h : S p.1 p.2 ≥ 0
  · rw [if_pos h] at hsome
    cases hsome
    exact h
  · rw [if_neg h] at hsome
    cases hsome

/-- Claim C4 counterexample: at the similarity assignment `S1` on 3 records
the positive-heuristic graph has the single edge `(0,1)` of weight `3`, so
the observed weight set is the non-empty `[3]`, yet the heuristic returns
`0`, which is not an element of that set. -/
theorem cut_membership_counterexample :
    ¬(findPositiveCut S1 3 ∈ posWeights S1 3 ∨
        (posWeights S1 3 = [] ∧ findPositiveCut S1 3 = 0)) := by
  decide

/-- Claim C4 as amended: the positive-heuristic cut is always `≥ 0`, and
each heuristic returns a cut that is either `0` or an element of the set of
edge weights it observed (hence `0` whenever that edge set is empty); the
heuristic may however return `0` even when the observed weight set is
non-empty and does not contain `0`, namely when the graph is already
disconnected at the first candidate threshold. -/
theorem cut_nonneg_and_membership (S : Nat → Nat → Int) (n : Nat) :
    0 ≤ findPositiveCut S n ∧
    (findPositiveCut S n = 0 ∨ findPositiveCut S n ∈ posWeights S n) ∧
    (findNegativeCut S n = 0 ∨ findNegativeCut S n ∈ negWeights S n) := by
  have hpos := findCutLoop_zero_or_mem n (posWeights S n) (posEdges S n) 0
  have hneg := findCutLoop_zero_or_mem n (negWeights S n) (negEdges S n) 0
  refine ⟨?_, hpos, hneg⟩
  rcases hpos with h | h
  · rw [findPositiveCut, h]
  · exact posWeights_nonneg h

lemma mem_gammaConstraints (S : Nat → Nat → Int) (n : Nat) (cut : Int) (i j k : Nat) :
    (((i, j, k, TriKind.c1) ∈ gammaConstraints S n cut) ↔
      i < j ∧ j < k ∧ k < n ∧ (S i j ≥ 0 ∧ S j k ≥ cut ∧ S i k ≤ 0)) ∧
    (((i, j, k, TriKind.c2) ∈ gammaConstraints S n cut) ↔
      i < j ∧ j < k ∧ k < n ∧ (S i j ≥ 0 ∧ S j k ≤ 0 ∧ S i k ≥ cut)) ∧
    (((i, j, k, TriKind.c3) ∈ gammaConstraints S n cut) ↔
      i < j ∧ j < k ∧ k < n ∧ (S i j ≤ 0 ∧ S j k ≥ cut ∧ S i k ≥ 0)) :=
  ⟨mem_emitTriangle, mem_emitTriangle, mem_emitTriangle⟩

/-- Claim C6: for the gamma variant, whose cut is the negative-heuristic
cut, and every triple `i<j<k`: C1 is emitted iff
`S_ij ≥ 0 ∧ S_jk ≥ cut ∧ S_ik ≤ 0`, C2 iff
`S_ij ≥ 0 ∧ S_jk ≤ 0 ∧ S_ik ≥ cut`, C3 iff
`S_ij ≤ 0 ∧ S_jk ≥ cut ∧ S_ik ≥ 0`, and no other constraints are
emitted. -/
theorem gamma_emission_rule (S : Nat → Nat → Int) (n : Nat) (i j k : Nat) :
    (((i, j, k, TriKind.c1) ∈ gammaRunConstraints S n) ↔
      i < j ∧ j < k ∧ k < n ∧
        (S i j ≥ 0 ∧ S j k ≥ findNegativeCut S n ∧ S i k ≤ 0)) ∧
    (((i, j, k, TriKind.c2) ∈ gammaRunConstraints S n) ↔
      i < j ∧ j < k ∧ k < n ∧
        (S i j ≥ 0 ∧ S j k ≤ 0 ∧ S i k ≥ findNegativeCut S n)) ∧
    (((i, j, k, TriKind.c3) ∈ gammaRunConstraints S n) ↔
      i < j ∧ j < k ∧ k < n ∧
        (S i j ≤ 0 ∧ S j k ≥ findNegativeCut S n ∧ S i k ≥ 0)) :=
  mem_gammaConstraints S n (findNegativeCut S n) i j k

/-- Variable index of a pair in solver order: variables are added for pairs
`i<j` in the enumeration order of `pairsList`, each receiving the current
variable count (`my_prob.variables.get_num()`). -/
def varIndex (n i j : Nat) : Nat :=
  (pairsList n).indexOf (i, j)

/-- The `X` variable-index matrix of the `run*` methods: initialised to `0`
everywhere and overwritten with the variable index only at cells `i<j`;
cells with `i ≥ j` keep the default `0`. -/
def Xmat (n i j : Nat) : Nat :=
  if i < j then varIndex n i j else 0

/-- Decoder state: the per-record group list (`-1` means unassigned) and the
next fresh group id. -/
structure DecState where
  groups : List Int
  groupID : Int
deriving DecidableEq

/-- One decoder step on an active pair `(i, j)`, from the partition loop of
`runRM` (identical in `runRMalpha`, `runRMbeta`, `runRMgamma`): fresh group
when both endpoints are unassigned, adopt the other's group when exactly one
is, and otherwise `groups[j] := groups[i]`. -/
def processPair (st : DecState) (i j : Nat) : DecState :=
  if st.groups.getD i (-1) = -1 ∧ st.groups.getD j (-1) = -1 then
    { groups := (st.groups.set i st.groupID).set j st.groupID,
      groupID := st.groupID + 1 }
  else if st.groups.getD i (-1) = -1 then
    { st with groups := st.groups.set i (st.groups.getD j (-1)) }
  else
    { st with groups := st.groups.set j (st.groups.getD i (-1)) }

/-- The pair scan order of the decoder loop in the source:
`for i in range(n): for j in range(n)` — the full matrix, diagonal and lower
triangle included. -/
def fullScanPairs (n : Nat) : List (Nat × Nat) :=
  (List.range n).flatMap (fun i => (List.range n).map (fun j => (i, j)))

/-- Run the decoder over a pair list: starting from all records unassigned,
process every pair whose variable value (looked up through the `X` matrix)
is `> 0`. -/
def decodeScan (n : Nat) (x : List ℚ) (pairs : List (Nat × Nat)) : DecState :=
  pairs.foldl
    (fun st p => if x.getD (Xmat n p.1 p.2) 0 > 0 then processPair st p.1 p.2 else st)
    ⟨List.replicate n (-1), 0⟩

/-- Final pass of the decoder: every record still unassigned receives its
own fresh group id. -/
def finalizeGroups (st : DecState) : List Int :=
  (st.groups.foldl
    (fun (acc : List Int × Int) g =>
      if g = -1 then (acc.1 ++ [acc.2], acc.2 + 1) else (acc.1 ++ [g], acc.2))
    ([], st.groupID)).1

/-- The partition decoder as implemented in the source: a full-matrix scan
(all cells `(i, j)`, including `i ≥ j` whose `X` entry defaults to `0`),
followed by the singleton pass. -/
def runDecoder (n : Nat) (x : List ℚ) : List Int :=
  finalizeGroups (decodeScan n x (fullScanPairs n))

/-- Modelled from the spec (§4.5): the decoder that consults only the pairs
`i<j` that actually own a variable, as the specification requires; used as
the reference behaviour the source's full-matrix scan is compared with. -/
def specDecoder (n : Nat) (x : List ℚ) : List Int :=
  finalizeGroups (decodeScan n x (pairsList n))

lemma list_set_getD_self (l : List Int) (j : Nat) :
    l.set j (l.getD j (-1)) = l := by
  induction l generalizing j with
  | nil => simp
  | cons a t ih =>
    cases j with
    | zero => simp [List.getD]
    | succ j => simpa [List.getD] using ih j

/-- Claim C1 counterexample: with `n = 4` and values activating exactly the
pairs `(0,2)` and `(1,3)` the source decoder reaches the state
`groups = [0,1,0,1]`; processing the pair `(2,3)` there — both endpoints
already assigned, to different groups — overwrites `groups[3]` with
`groups[2]`, changing the partition instead of being a no-op. -/
theorem decoder_overwrite_counterexample :
    decodeScan 4 [0, 1, 0, 0, 1, 0] (fullScanPairs 4) = ⟨[0, 1, 0, 1], 2⟩ ∧
    ([0, 1, 0, 1] : List Int).getD 2 (-1) ≠ -1 ∧
    ([0, 1, 0, 1] : List Int).getD 3 (-1) ≠ -1 ∧
    (processPair ⟨[0, 1, 0, 1], 2⟩ 2 3).groups ≠ [0, 1, 0, 1] := by
  decide

/-- Claim C1 as amended: processing a pair whose two endpoints both already
have a group id sets the second endpoint's group to the first endpoint's
group (`groups[j] := groups[i]`) — an overwrite, not a no-op in general; the
partition is left unchanged in the special case where the two endpoints
already carry the same group id. -/
theorem decoder_both_assigned_overwrites (st : DecState) (i j : Nat)
    (hi : st.groups.getD i (-1) ≠ -1) (hj : st.groups.getD j (-1) ≠ -1) :
    (processPair st i j).groups = st.groups.set j (st.groups.getD i (-1)) ∧
    (st.groups.getD j (-1) = st.groups.getD i (-1) →
      (processPair st i j).groups = st.groups) := by
  have hstep : processPair st i j =
      { st with groups := st.groups.set j (st.groups.getD i (-1)) } := by
    rw [processPair, if_neg (by tauto), if_neg hi]
  refine ⟨by rw [hstep], fun heq => ?_⟩
  rw [hstep]
  show st.groups.set j (st.groups.getD i (-1)) = st.groups
  rw [← heq]
  exact list_set_getD_self st.groups j

/-- Witness for the amended claim C1, at the reachable state
`groups = [0,1,0,1]` and the pair `(2,3)`. -/
theorem decoder_both_assigned_overwrites_witness :
    (processPair ⟨[0, 1, 0, 1], 2⟩ 2 3).groups
        = ([0, 1, 0, 1] : List Int).set 3 (([0, 1, 0, 1] : List Int).getD 2 (-1)) ∧
    (([0, 1, 0, 1] : List Int).getD 3 (-1) = ([0, 1, 0, 1] : List Int).getD 2 (-1) →
      (processPair ⟨[0, 1, 0, 1], 2⟩ 2 3).groups = [0, 1, 0, 1]) :=
  decoder_both_assigned_overwrites ⟨[0, 1, 0, 1], 2⟩ 2 3 (by decide) (by decide)

/-- Claim C2 refutation: the source decoder scans the full matrix, and the
`i ≥ j` cells — whose `X` entry holds the default value `0`, colliding with
the index of the first real variable — do influence the partition.  With
`n = 3` and the feasible integral solution putting records 0 and 1 together
(`x = [1,0,0]`), the cell `(2,0)` is treated as "variable 0 is active" and
record 2 is pulled into the group of records 0 and 1: the source yields
`[0,0,0]`, while the `i<j`-only decode required by the claim yields
`[0,0,1]`. -/
theorem decoder_lower_triangle_influences :
    runDecoder 3 [1, 0, 0] = [0, 0, 0] ∧
    specDecoder 3 [1, 0, 0] = [0, 0, 1] ∧
    runDecoder 3 [1, 0, 0] ≠ specDecoder 3 [1, 0, 0] := by
  decide

/-- Claim C8 refutation: loading happily accepts ragged rows.  On the
two-row input with lengths 2 and 3 the loader reports `n = 2` and derives
`m = (2+3) / 2 = 2` by floor division over the malformed rows — no error is
raised and the surplus token is silently ignored. -/
theorem ragged_rows_accepted :
    loadDims [["a", "b"], ["c", "d", "e"]] = (2, 2) ∧
    ([["a", "b"], ["c", "d", "e"]].map List.length) = [2, 3] := by
  decide

end Regnier
